import Mathlib

/-!
# Verification of the NFTS2Me mint-tracker core pipeline

Shallow embedding of the log-classification / decoding / aggregation pipeline
of the mint-tracker application (source: `src/unnamed/part_000`, `src/types.ts`,
`src/constants.ts`).

Modelling conventions:
* 256-bit EVM words (topics, ABI words) are `Nat`; addresses extracted from a
  topic take the low 20 bytes, i.e. `t % 2 ^ 160` (the source's
  `getAddress('0x' + topic.slice(26))`).
* The ABI payload (`log.data`) is a list of 256-bit words; dynamic-array
  offsets are counted in words.  The external `ethers.AbiCoder` is modelled by
  word-level decoders returning `Option` (decode failure = `none`); in the
  source a decode failure throws and is caught by `processLog`'s `try/catch`,
  which returns whatever results were pushed so far — the embedding returns
  the accumulated list at each possible throw point.
* JS `number` log indexes become `ℚ`: the batch decoder's
  `baseLogIndex + i * 0.001` is `base + i * (1/1000)` (exact for the small
  sub-indexes the source relies on).
* Maps (`summaries`, `metaCache`) are functions `Nat → Option _`; the JS
  `Set<string>` of token ids is a `Finset String`.
-/

/-- `TokenType` from `src/types.ts`. -/
inductive TokenType where
  | ERC20
  | ERC721
  | ERC1155
deriving DecidableEq, Repr

/-- `MintItem` from `src/types.ts`.  Addresses are 160-bit values. -/
structure MintItem where
  blockNumber : Nat
  txHash : String
  logIndex : ℚ
  contract : Nat
  toAddr : Nat -- the source field `to` (`to` is a reserved token here)
  type : TokenType
  tokenId : Option String := none
  amount : Option String := none
  timestamp : Option Nat := none
deriving DecidableEq, Repr

/-- A raw chain log as delivered by the provider (`ethers.Log`):
address, topics, ABI data payload, block number, tx hash, log index. -/
structure RawLog where
  blockNumber : Nat
  transactionHash : String
  index : Nat
  address : Nat
  topics : List Nat
  data : List Nat
deriving DecidableEq, Repr

/-- `ContractMeta` from `src/types.ts`; the JS meta object always carries all
three keys (possibly `undefined`), so all three fields are `Option`s. -/
structure ContractMeta where
  name : Option String := none
  symbol : Option String := none
  decimals : Option Nat := none
deriving DecidableEq, Repr

/-- `CollSummary` from `src/types.ts`. -/
structure CollSummary where
  address : Nat
  type : TokenType
  name : Option String := none
  symbol : Option String := none
  decimals : Option Nat := none
  totalMintEvents : Nat
  uniqueTokens : Nat
  tokenIds : Finset String
deriving DecidableEq

/-- `Transfer(address,address,uint256)` signature topic (`src/constants.ts`). -/
def TRANSFER_TOPIC : Nat :=
  0xddf252ad1be2c89b69c2b068fc378daa952ba7f163c4a11628f55a4df523b3ef

/-- `TransferSingle` signature topic (`src/constants.ts`). -/
def TRANSFER_SINGLE_TOPIC : Nat :=
  0xc3d58168c5ae7397731d063d5bbf3d657854427343f4c083240f7aacaa2d0f62

/-- `TransferBatch` signature topic (`src/constants.ts`). -/
def TRANSFER_BATCH_TOPIC : Nat :=
  0x4a39dc06d4c0dbc64b70af90fd698a233a518aa5d07e595d983b8c0526c8f7fb

/-- The zero address left-padded to 32 bytes (`ZERO_TOPIC` in
`src/constants.ts`); as a word it is `0`. -/
def ZERO_TOPIC : Nat := 0

/-- Low 20 bytes of a 32-byte topic word: the source's
`ethers.getAddress('0x' + topic.slice(26))`. -/
def topicToAddress (t : Nat) : Nat := t % 2 ^ 160

/-- `AbiCoder.decode(['uint256'], data)`: needs at least one word. -/
def decodeUint256 (data : List Nat) : Option Nat := data[0]?

/-- `AbiCoder.decode(['uint256','uint256'], data)`: needs two head words. -/
def decodeUint256Pair (data : List Nat) : Option (Nat × Nat) :=
  match data[0]?, data[1]? with
  | some a, some b => some (a, b)
  | _, _ => none

/-- Read a dynamic `uint256[]` at word offset `off`: a length word followed by
that many element words, all within bounds. -/
def readDynArray (data : List Nat) (off : Nat) : Option (List Nat) :=
  match data[off]? with
  | none => none
  | some len =>
      if off + 1 + len ≤ data.length then some ((data.drop (off + 1)).take len)
      else none

/-- `AbiCoder.decode(['uint256[]','uint256[]'], data)`: two offset words, each
pointing at a dynamic array. -/
def decodeUintArrayPair (data : List Nat) : Option (List Nat × List Nat) :=
  match data[0]?, data[1]? with
  | some off1, some off2 =>
      match readDynArray data off1, readDynArray data off2 with
      | some ids, some vals => some (ids, vals)
      | _, _ => none
  | _, _ => none

/-- The `TransferBatch` emission loop of `processLog`: one `MintItem` per index
of `ids`, with `logIndex = base + i * 0.001`.  Reading `values[i]` past the end
of `values` throws in the source (`undefined.toString()`); the `catch` then
returns the items pushed so far, so the model stops and keeps the prefix. -/
def batchItems (log : RawLog) (toA : Nat) : List Nat → List Nat → Nat → List MintItem
  | [], _, _ => []
  | id :: ids, vals, i =>
      match vals[i]? with
      | none => []
      | some v =>
          { blockNumber := log.blockNumber
            txHash := log.transactionHash
            logIndex := (log.index : ℚ) + (i : ℚ) * (1 / 1000)
            contract := log.address
            toAddr := toA
            type := TokenType.ERC1155
            tokenId := some (Nat.repr id)
            amount := some (Nat.repr v) } :: batchItems log toA ids vals (i + 1)

/-- `processLog` (`src/unnamed/part_000`, lines 75–141): classifies a log by
its signature topic and zero-address sentinel and decodes zero or more
`MintItem`s.  Accessing a missing topic (`undefined.slice`) or a failing ABI
decode throws inside the `try`, so the function returns the results pushed up
to that point (the empty list in every branch except the batch loop). -/
def processLog (log : RawLog) : List MintItem :=
  match log.topics[0]? with
  | none => []
  | some t0 =>
    if t0 = TRANSFER_TOPIC then
      match log.topics[1]? with
      | none => []
      | some t1 =>
        if t1 = ZERO_TOPIC then
          match log.topics[2]? with
          | none => []
          | some t2 =>
            if log.topics.length = 4 then
              match log.topics[3]? with
              | none => []
              | some t3 =>
                [{ blockNumber := log.blockNumber
                   txHash := log.transactionHash
                   logIndex := (log.index : ℚ)
                   contract := log.address
                   toAddr := topicToAddress t2
                   type := TokenType.ERC721
                   tokenId := some (Nat.repr t3) }]
            else
              match decodeUint256 log.data with
              | none => []
              | some amt =>
                [{ blockNumber := log.blockNumber
                   txHash := log.transactionHash
                   logIndex := (log.index : ℚ)
                   contract := log.address
                   toAddr := topicToAddress t2
                   type := TokenType.ERC20
                   amount := some (Nat.repr amt) }]
        else []
    else if t0 = TRANSFER_SINGLE_TOPIC then
      match log.topics[2]? with
      | none => []
      | some t2 =>
        if t2 = ZERO_TOPIC then
          match log.topics[3]? with
          | none => []
          | some t3 =>
            match decodeUint256Pair log.data with
            | none => []
            | some (id, v) =>
              [{ blockNumber := log.blockNumber
                 txHash := log.transactionHash
                 logIndex := (log.index : ℚ)
                 contract := log.address
                 toAddr := topicToAddress t3
                 type := TokenType.ERC1155
                 tokenId := some (Nat.repr id)
                 amount := some (Nat.repr v) }]
        else []
    else if t0 = TRANSFER_BATCH_TOPIC then
      match log.topics[2]? with
      | none => []
      | some t2 =>
        if t2 = ZERO_TOPIC then
          match log.topics[3]? with
          | none => []
          | some t3 =>
            match decodeUintArrayPair log.data with
            | none => []
            | some (ids, vals) => batchItems log (topicToAddress t3) ids vals 0
        else []
    else []

/-! ## Aggregator state: metadata cache, per-contract summaries, global log -/

/-- The `metaCache` ref: a map from contract address to `ContractMeta`. -/
abbrev MetaCache := Nat → Option ContractMeta

/-- The `summaries` state: a map from contract address to `CollSummary`. -/
abbrev Summaries := Nat → Option CollSummary

/-- `upsertSummary` (`src/unnamed/part_000`, lines 184–209): update-or-create
the summary of `item.contract`.  A fresh summary seeds `name`/`symbol`/
`decimals` from the metadata cache; JS truthiness of `item.tokenId` means
`undefined` and the empty string are both skipped. -/
def upsertSummary (cache : MetaCache) (item : MintItem) (prev : Summaries) :
    Summaries :=
  let addr := item.contract
  let cur : CollSummary :=
    match prev addr with
    | some s => s
    | none =>
        { address := addr
          type := item.type
          name := (cache addr).bind ContractMeta.name
          symbol := (cache addr).bind ContractMeta.symbol
          decimals := (cache addr).bind ContractMeta.decimals
          totalMintEvents := 0
          uniqueTokens := 0
          tokenIds := ∅ }
  let tokenIds : Finset String :=
    match item.tokenId with
    | some t => if t = "" then cur.tokenIds else insert t cur.tokenIds
    | none => cur.tokenIds
  fun a =>
    if a = addr then
      some { cur with
              tokenIds := tokenIds
              uniqueTokens := tokenIds.card
              totalMintEvents := cur.totalMintEvents + 1 }
    else prev a

/-- The per-item summary loop of `processNewItems` (lines 214–222): fold
`upsertSummary` over the new items in arrival order. -/
def ingestSummaries (cache : MetaCache) (items : List MintItem)
    (prev : Summaries) : Summaries :=
  items.foldl (fun m it => upsertSummary cache it m) prev

/-- The sort comparator of `processNewItems` (line 229), as the predicate
"`a` may precede `b`":  `(b.blockNumber - a.blockNumber || b.logIndex -
a.logIndex) ≤ 0`, i.e. block number descending then log index descending. -/
def leKey (a b : MintItem) : Bool :=
  decide (b.blockNumber < a.blockNumber) ||
    (decide (a.blockNumber = b.blockNumber) && decide (b.logIndex ≤ a.logIndex))

/-- The global-log update of `processNewItems` (lines 212 and 229): an empty
batch returns early; otherwise the new items are prepended and the whole log
re-sorted by `leKey` (JS `Array.prototype.sort` is stable, as is
`List.mergeSort`). -/
def ingestLog (newItems prev : List MintItem) : List MintItem :=
  if newItems.isEmpty then prev else (newItems ++ prev).mergeSort leKey

/-- A sequence of `processNewItems` calls acting on the global log, starting
from the empty log of a fresh session. -/
def foldIngestLog (batches : List (List MintItem)) : List MintItem :=
  batches.foldl (fun acc b => ingestLog b acc) []

/-- The summary update performed by `enrichCollection` once metadata resolves
(lines 174–178): if no summary exists yet, nothing happens; otherwise the
resolved meta object is spread over the summary, overwriting exactly the
`name`/`symbol`/`decimals` fields (the JS meta literal always carries all
three keys). -/
def mergeMetaIntoSummaries (addr : Nat) (meta : ContractMeta)
    (prev : Summaries) : Summaries :=
  match prev addr with
  | none => prev
  | some cur =>
      fun a =>
        if a = addr then
          some { cur with
                  name := meta.name
                  symbol := meta.symbol
                  decimals := meta.decimals }
        else prev a

/-! ## Live-session state machine

The source is single-threaded JavaScript: every synchronous block between two
`await`s runs atomically.  The session ops below are exactly those blocks that
touch the shared state: a summary upsert, the synchronous prefix of
`enrichCollection` (cache-presence check plus placeholder insert, lines
153–156), and the completion of a metadata fetch (lines 172–178).
`fetchCount` is a ghost counter of started fetches. -/

structure SessionState where
  metaCache : MetaCache
  summaries : Summaries
  fetchCount : Nat → Nat

/-- The state right after the reset in `startLive` (lines 241–243). -/
def resetState : SessionState :=
  { metaCache := fun _ => none, summaries := fun _ => none, fetchCount := fun _ => 0 }

inductive SessionOp where
  | upsert (item : MintItem)
  | enrichStart (addr : Nat)
  | enrichResolve (addr : Nat) (meta : ContractMeta)

/-- One atomic step of the live session.  `enrichStart` is the synchronous
prefix of `enrichCollection`: on a cache hit it returns without doing
anything; on a miss it installs the `{}` placeholder and starts the (counted)
fetch.  `enrichResolve` is the fetch completion: it overwrites the cache entry
and merges the meta into an existing summary. -/
def applyOp (s : SessionState) : SessionOp → SessionState
  | .upsert item => { s with summaries := upsertSummary s.metaCache item s.summaries }
  | .enrichStart addr =>
      if (s.metaCache addr).isSome then s
      else
        { s with
            metaCache := fun a => if a = addr then some {} else s.metaCache a
            fetchCount := fun a => if a = addr then s.fetchCount a + 1 else s.fetchCount a }
  | .enrichResolve addr meta =>
      { s with
          metaCache := fun a => if a = addr then some meta else s.metaCache a
          summaries := mergeMetaIntoSummaries addr meta s.summaries }

/-- Run a session from the post-reset state. -/
def runSession (ops : List SessionOp) : SessionState :=
  ops.foldl applyOp resetState

/-! ## Contract filter (`startLive` listener, lines 247–259) -/

/-- `MINT_CONTRACT_WHITELIST` from `src/constants.ts`. -/
def MINT_CONTRACT_WHITELIST : List String :=
  ["0x00000000009a1E02f00E280dcfA4C81c55724212"]

/-- `allowedMintContracts` (line 73): the whitelist, lower-cased. -/
def allowedMintContracts : List String :=
  MINT_CONTRACT_WHITELIST.map String.toLower

/-- The `to` field of the transaction returned by `getTransaction`
(`null` for a contract creation). -/
structure TxInfo where
  toField : Option String -- the source field `to` (`to` is a reserved token here)

/-- The listener's gate (line 250): `tx && tx.to &&
allowedMintContracts.has(tx.to.toLowerCase())`.  `none` for the whole
transaction models a `null` result (or a thrown lookup, caught by the
listener). -/
def txAllowed : Option TxInfo → Bool
  | none => false
  | some tx =>
      match tx.toField with
      | none => false
      | some t => allowedMintContracts.contains t.toLower

/-- One listener invocation (lines 247–259): the log is classified and
decoded only when the gate passes. -/
def liveStep (txr : Option TxInfo) (log : RawLog) : List MintItem :=
  if txAllowed txr then processLog log else []

/-! ## Helper notions for the aggregation claims -/

/-- The empty summary map of a fresh session. -/
def emptySummaries : Summaries := fun _ => none

/-- The token id a `MintItem` contributes to the unique-token set: JS
truthiness keeps exactly the non-empty strings. -/
def tokenKey (it : MintItem) : Option String :=
  match it.tokenId with
  | some t => if t = "" then none else some t
  | none => none

/-- Total mint events recorded for address `a` (0 when no summary exists). -/
def totalAt (m : Summaries) (a : Nat) : Nat :=
  (m a).elim 0 CollSummary.totalMintEvents

/-- Unique-token count recorded for address `a`. -/
def uniqueAt (m : Summaries) (a : Nat) : Nat :=
  (m a).elim 0 CollSummary.uniqueTokens

/-- Token-id set recorded for address `a`. -/
def tidsAt (m : Summaries) (a : Nat) : Finset String :=
  (m a).elim ∅ CollSummary.tokenIds

/-- Number of items of a list addressed to contract `a`. -/
def countAt (a : Nat) (items : List MintItem) : Nat :=
  items.countP (fun it => it.contract == a)

/-- Set of distinct non-empty token ids among the items addressed to `a`. -/
def tsetAt (a : Nat) (items : List MintItem) : Finset String :=
  ((items.filter (fun it => it.contract == a)).filterMap tokenKey).toFinset

theorem totalAt_upsert (cache : MetaCache) (it : MintItem) (prev : Summaries)
    (a : Nat) :
    totalAt (upsertSummary cache it prev) a
      = totalAt prev a + (if it.contract = a then 1 else 0) := by
  by_cases h : a = it.contract
  · subst h
    cases hp : prev it.contract <;>
      simp [upsertSummary, totalAt, hp]
  · simp [upsertSummary, totalAt, h, Ne.symm h]

theorem totalAt_ingest (cache : MetaCache) (items : List MintItem)
    (prev : Summaries) (a : Nat) :
    totalAt (ingestSummaries cache items prev) a
      = totalAt prev a + countAt a items := by
  induction items generalizing prev with
  | nil => simp [ingestSummaries, countAt]
  | cons it rest ih =>
      simp only [ingestSummaries, List.foldl_cons] at ih ⊢
      rw [ih, totalAt_upsert]
      simp only [countAt, List.countP_cons, beq_iff_eq]
      omega

theorem tidsAt_upsert (cache : MetaCache) (it : MintItem) (prev : Summaries)
    (a : Nat) :
    tidsAt (upsertSummary cache it prev) a
      = tidsAt prev a ∪
          (if it.contract = a then (tokenKey it).elim ∅ (fun t => {t}) else ∅) := by
  by_cases h : a = it.contract
  · subst h
    cases hp : prev it.contract <;>
      cases hid : it.tokenId with
      | none => simp [upsertSummary, tidsAt, tokenKey, hp, hid]
      | some t =>
          by_cases ht : t = "" <;>
            simp [upsertSummary, tidsAt, tokenKey, hp, hid, ht, Finset.insert_eq,
              Finset.union_comm]
  · simp [upsertSummary, tidsAt, h, Ne.symm h]

theorem tsetAt_cons (a : Nat) (it : MintItem) (rest : List MintItem) :
    tsetAt a (it :: rest)
      = (if it.contract = a then (tokenKey it).elim ∅ (fun t => {t}) else ∅)
          ∪ tsetAt a rest := by
  by_cases h : it.contract = a
  · cases hk : tokenKey it <;>
      simp [tsetAt, List.filter_cons, h, List.filterMap_cons, hk, Finset.insert_eq]
  · simp [tsetAt, List.filter_cons, h]

theorem tidsAt_ingest (cache : MetaCache) (items : List MintItem)
    (prev : Summaries) (a : Nat) :
    tidsAt (ingestSummaries cache items prev) a
      = tidsAt prev a ∪ tsetAt a items := by
  induction items generalizing prev with
  | nil => simp [ingestSummaries, tsetAt]
  | cons it rest ih =>
      simp only [ingestSummaries, List.foldl_cons] at ih ⊢
      rw [ih, tidsAt_upsert, tsetAt_cons, Finset.union_assoc]

theorem isSome_upsert (cache : MetaCache) (it : MintItem) (prev : Summaries)
    (a : Nat) :
    ((upsertSummary cache it prev) a).isSome
      ↔ (prev a).isSome ∨ it.contract = a := by
  by_cases h : a = it.contract
  · subst h; simp [upsertSummary]
  · simp [upsertSummary, h, Ne.symm h]

theorem isSome_ingest (cache : MetaCache) (items : List MintItem)
    (prev : Summaries) (a : Nat) :
    ((ingestSummaries cache items prev) a).isSome
      ↔ (prev a).isSome ∨ 0 < countAt a items := by
  induction items generalizing prev with
  | nil => simp [ingestSummaries, countAt]
  | cons it rest ih =>
      simp only [ingestSummaries, List.foldl_cons] at ih ⊢
      rw [ih, isSome_upsert]
      simp only [countAt, List.countP_cons, beq_iff_eq]
      constructor
      · rintro ((h | h) | h)
        · exact Or.inl h
        · right; simp [h]
        · right; omega
      · rintro (h | h)
        · exact Or.inl (Or.inl h)
        · by_cases hc : it.contract = a
          · exact Or.inl (Or.inr hc)
          · right
            simpa [hc] using h

/-- Every summary ever stored satisfies `uniqueTokens = tokenIds.card`. -/
def SummariesCardInv (m : Summaries) : Prop :=
  ∀ a s, m a = some s → s.uniqueTokens = s.tokenIds.card

theorem cardInv_empty : SummariesCardInv emptySummaries := by
  intro a s h
  simp [emptySummaries] at h

theorem cardInv_upsert (cache : MetaCache) (it : MintItem) (prev : Summaries)
    (h : SummariesCardInv prev) :
    SummariesCardInv (upsertSummary cache it prev) := by
  intro a s hs
  by_cases ha : a = it.contract
  · subst ha
    simp only [upsertSummary, if_pos rfl, Option.some.injEq] at hs
    subst hs
    rfl
  · apply h
    simpa [upsertSummary, ha] using hs

theorem cardInv_ingest (cache : MetaCache) (items : List MintItem)
    (prev : Summaries) (h : SummariesCardInv prev) :
    SummariesCardInv (ingestSummaries cache items prev) := by
  induction items generalizing prev with
  | nil => simpa [ingestSummaries] using h
  | cons it rest ih =>
      simp only [ingestSummaries, List.foldl_cons] at ih ⊢
      exact ih _ (cardInv_upsert cache it prev h)

/-! ## Helper lemmas about the global-log sort -/

theorem leKey_trans : ∀ a b c : MintItem,
    leKey a b → leKey b c → leKey a c := by
  intro a b c hab hbc
  simp only [leKey, Bool.or_eq_true, Bool.and_eq_true, decide_eq_true_eq] at *
  rcases hab with h1 | ⟨h1, h1'⟩ <;> rcases hbc with h2 | ⟨h2, h2'⟩
  · exact Or.inl (h2.trans h1)
  · exact Or.inl (h2 ▸ h1)
  · exact Or.inl (h1 ▸ h2)
  · exact Or.inr ⟨h1.trans h2, h2'.trans h1'⟩

theorem leKey_total : ∀ a b : MintItem, leKey a b || leKey b a := by
  intro a b
  simp only [leKey, Bool.or_eq_true, Bool.and_eq_true, decide_eq_true_eq]
  rcases Nat.lt_trichotomy a.blockNumber b.blockNumber with h | h | h
  · exact Or.inr (Or.inl h)
  · rcases le_total a.logIndex b.logIndex with h' | h'
    · exact Or.inr (Or.inr ⟨h.symm, h'⟩)
    · exact Or.inl (Or.inr ⟨h, h'⟩)
  · exact Or.inl (Or.inl h)

/-- The strict part of the sort key: strictly later block, or same block and
strictly larger log index. -/
def ltKey (a b : MintItem) : Prop :=
  b.blockNumber < a.blockNumber ∨
    (b.blockNumber = a.blockNumber ∧ b.logIndex < a.logIndex)

/-- Two items with different sort keys. -/
def keyNe (a b : MintItem) : Prop :=
  a.blockNumber ≠ b.blockNumber ∨ a.logIndex ≠ b.logIndex

theorem keyNe_symm : ∀ {a b : MintItem}, keyNe a b → keyNe b a := by
  intro a b h
  rcases h with h | h
  · exact Or.inl h.symm
  · exact Or.inr h.symm

theorem ltKey_asymm : ∀ a b : MintItem, ltKey a b → ltKey b a → False := by
  intro a b h1 h2
  rcases h1 with h1 | ⟨h1, h1'⟩ <;> rcases h2 with h2 | ⟨h2, h2'⟩
  · exact absurd (h1.trans h2) (lt_irrefl _)
  · exact absurd h1 (h2 ▸ lt_irrefl _)
  · exact absurd h2 (h1 ▸ lt_irrefl _)
  · exact absurd (h1'.trans h2') (lt_irrefl _)

instance : IsAntisymm MintItem ltKey :=
  ⟨fun a b h1 h2 => (ltKey_asymm a b h1 h2).elim⟩

theorem ltKey_of_leKey_keyNe {a b : MintItem} (hle : leKey a b) (hne : keyNe a b) :
    ltKey a b := by
  simp only [leKey, Bool.or_eq_true, Bool.and_eq_true, decide_eq_true_eq] at hle
  rcases hle with h | ⟨h, h'⟩
  · exact Or.inl h
  · rcases hne with hn | hn
    · exact absurd h hn
    · exact Or.inr ⟨h.symm, lt_of_le_of_ne h' (Ne.symm hn)⟩

theorem pairwise_leKey_ingestLog (new prev : List MintItem)
    (hprev : prev.Pairwise (fun a b => leKey a b)) :
    (ingestLog new prev).Pairwise (fun a b => leKey a b) := by
  unfold ingestLog
  cases hn : new.isEmpty
  · simpa using List.sorted_mergeSort leKey_trans leKey_total (new ++ prev)
  · simpa using hprev

theorem ingestLog_perm (new prev : List MintItem) :
    (ingestLog new prev).Perm (new ++ prev) := by
  unfold ingestLog
  cases hn : new.isEmpty
  · simpa using List.mergeSort_perm (new ++ prev) leKey
  · have : new = [] := List.isEmpty_iff.mp hn
    simp [this]

theorem pairwise_leKey_foldIngestLog (batches : List (List MintItem)) :
    (foldIngestLog batches).Pairwise (fun a b => leKey a b) := by
  suffices h : ∀ acc : List MintItem, acc.Pairwise (fun a b => leKey a b) →
      (batches.foldl (fun acc b => ingestLog b acc) acc).Pairwise
        (fun a b => leKey a b) by
    exact h [] (List.Pairwise.nil)
  induction batches with
  | nil => intro acc hacc; simpa using hacc
  | cons b rest ih =>
      intro acc hacc
      exact ih _ (pairwise_leKey_ingestLog b acc hacc)

theorem foldIngestLog_perm (batches : List (List MintItem)) :
    (foldIngestLog batches).Perm batches.flatten := by
  suffices h : ∀ acc : List MintItem,
      (batches.foldl (fun acc b => ingestLog b acc) acc).Perm
        (acc ++ batches.flatten) by
    simpa using h []
  induction batches with
  | nil => intro acc; simp
  | cons b rest ih =>
      intro acc
      simp only [List.foldl_cons, List.flatten_cons]
      refine (ih (ingestLog b acc)).trans ?_
      have h1 : ((ingestLog b acc) ++ rest.flatten).Perm
          ((b ++ acc) ++ rest.flatten) :=
        (ingestLog_perm b acc).append_right _
      refine h1.trans ?_
      have h2 : ((b ++ acc) ++ rest.flatten).Perm ((acc ++ b) ++ rest.flatten) :=
        List.perm_append_comm.append_right _
      refine h2.trans ?_
      rw [List.append_assoc]

/-! ## Stream-level decoding -/

/-- The per-log decoding fold over a stream of logs: each listener invocation
contributes `processLog log` to the feed. -/
def processLogs (logs : List RawLog) : List MintItem :=
  logs.flatMap processLog

/-- The ABI decode attempted for `log`'s branch fails (`malformed data`):
this is exactly the condition under which the source's
`AbiCoder...decode(...)` call throws. -/
def payloadDecodeFails (log : RawLog) : Bool :=
  match log.topics[0]? with
  | none => false
  | some t0 =>
    if t0 = TRANSFER_TOPIC then
      decide (log.topics[1]? = some ZERO_TOPIC) &&
        !(decide (log.topics.length = 4)) && (decodeUint256 log.data).isNone
    else if t0 = TRANSFER_SINGLE_TOPIC then
      decide (log.topics[2]? = some ZERO_TOPIC) &&
        (decodeUint256Pair log.data).isNone
    else if t0 = TRANSFER_BATCH_TOPIC then
      decide (log.topics[2]? = some ZERO_TOPIC) &&
        (decodeUintArrayPair log.data).isNone
    else false

/-! ## C1 -/

/-- C1, counterexample.  The claim says: a Transfer log with topic[1] the zero
sentinel yields an ERC-20 mint when it has exactly 2 topics, and not-a-mint
for any topic count other than 2 and 4.  The code disagrees on both points:
with exactly 2 topics the recipient read `topics[2].slice(26)` throws and no
item is produced, while with exactly 3 topics (the actual on-chain ERC-20
shape) an ERC-20 mint IS produced. -/
theorem C1_counterexample :
    (⟨100, "0xa2", 5, 3, [TRANSFER_TOPIC, ZERO_TOPIC], [7]⟩ : RawLog).topics.length = 2
  ∧ processLog ⟨100, "0xa2", 5, 3, [TRANSFER_TOPIC, ZERO_TOPIC], [7]⟩ = []
  ∧ (⟨100, "0xa1", 5, 3, [TRANSFER_TOPIC, ZERO_TOPIC, 9], [7]⟩ : RawLog).topics.length = 3
  ∧ processLog ⟨100, "0xa1", 5, 3, [TRANSFER_TOPIC, ZERO_TOPIC, 9], [7]⟩
      = [⟨100, "0xa1", 5, 3, 9, TokenType.ERC20, none, some "7", none⟩] :=
  ⟨rfl, by decide, rfl, by decide⟩

/-- C1 (amended): for a log whose topic[0] is the Transfer signature and whose
topic[1] is the zero sentinel: exactly 4 topics give an ERC-721 mint with
tokenId from topic[3]; exactly 3 topics give an ERC-20 mint with the amount
decoded from data (no item if the decode fails); exactly 2 topics give no
MintItem (the recipient read fails); and with fewer than 2 topics the decoder
also produces no MintItem. -/
theorem C1_transfer_classification (bn : Nat) (tx : String) (li addr : Nat)
    (d : List Nat) (t2 t3 : Nat) :
    processLog ⟨bn, tx, li, addr, [TRANSFER_TOPIC, ZERO_TOPIC, t2, t3], d⟩
        = [⟨bn, tx, (li : ℚ), addr, topicToAddress t2, TokenType.ERC721,
            some (Nat.repr t3), none, none⟩]
  ∧ processLog ⟨bn, tx, li, addr, [TRANSFER_TOPIC, ZERO_TOPIC, t2], d⟩
        = (match decodeUint256 d with
           | some amt => [⟨bn, tx, (li : ℚ), addr, topicToAddress t2,
               TokenType.ERC20, none, some (Nat.repr amt), none⟩]
           | none => [])
  ∧ processLog ⟨bn, tx, li, addr, [TRANSFER_TOPIC, ZERO_TOPIC], d⟩ = []
  ∧ (∀ ts : List Nat, ts.length ≤ 1 →
      processLog ⟨bn, tx, li, addr, ts, d⟩ = []) := by
  refine ⟨?_, ?_, ?_, ?_⟩
  · simp [processLog, ZERO_TOPIC]
  · cases hd : decodeUint256 d <;>
      simp [processLog, ZERO_TOPIC, hd]
  · simp [processLog, ZERO_TOPIC]
  · intro ts hts
    rcases ts with _ | ⟨t0, ts'⟩
    · simp [processLog]
    · rcases ts' with _ | ⟨t1, ts''⟩
      · simp only [processLog, List.getElem?_cons_zero,
          List.getElem?_cons_succ, List.getElem?_nil]
        split_ifs <;> rfl
      · simp at hts

/-- Witness for C1's amended theorem: instantiated at a concrete log with one
topic, discharging the topic-count hypothesis. -/
theorem C1_transfer_classification_witness :
    processLog ⟨1, "0xw", 0, 2, [TRANSFER_TOPIC], []⟩ = [] :=
  (C1_transfer_classification 1 "0xw" 0 2 [] 0 0).2.2.2 [TRANSFER_TOPIC] (by decide)

/-! ## C2 -/

/-- C2: when the ABI decode attempted for a log's branch fails, `processLog`
yields the empty item list (no partial output — in every branch the decode
precedes the first push), and — the `try/catch` containing every fallible
step, the decoder being a total function of one log — a failing log dropped
from the middle of a stream leaves the other logs' items untouched. -/
theorem C2_decode_failure_degrades (log : RawLog)
    (h : payloadDecodeFails log = true) :
    processLog log = [] ∧
    ∀ pre post : List RawLog,
      processLogs (pre ++ log :: post) = processLogs pre ++ processLogs post := by
  have hempty : processLog log = [] := by
    have hTS : TRANSFER_SINGLE_TOPIC ≠ TRANSFER_TOPIC := by decide
    have hBT : TRANSFER_BATCH_TOPIC ≠ TRANSFER_TOPIC := by decide
    have hBS : TRANSFER_BATCH_TOPIC ≠ TRANSFER_SINGLE_TOPIC := by decide
    cases h0 : log.topics[0]? with
    | none => simp [processLog, h0]
    | some t0 =>
      simp only [payloadDecodeFails, h0] at h
      by_cases hT : t0 = TRANSFER_TOPIC
      · simp [hT, Option.isNone_iff_eq_none] at h
        obtain ⟨⟨h1, h2⟩, h3⟩ := h
        cases h4 : log.topics[2]? with
        | none => simp [processLog, h0, hT, h1, h4]
        | some t2 => simp [processLog, h0, hT, h1, h2, h3, h4]
      · by_cases hS : t0 = TRANSFER_SINGLE_TOPIC
        · simp [hT, hS, Option.isNone_iff_eq_none] at h
          obtain ⟨h1, h2⟩ := h
          cases h4 : log.topics[3]? with
          | none => simp [processLog, h0, hS, hTS, h1, h4]
          | some t3 => simp [processLog, h0, hS, hTS, h1, h2, h4]
        · by_cases hB : t0 = TRANSFER_BATCH_TOPIC
          · simp [hT, hS, hB, Option.isNone_iff_eq_none] at h
            obtain ⟨h1, h2⟩ := h
            cases h4 : log.topics[3]? with
            | none => simp [processLog, h0, hB, hBT, hBS, h1, h4]
            | some t3 => simp [processLog, h0, hB, hBT, hBS, h1, h2, h4]
          · simp [hT, hS, hB] at h
  refine ⟨hempty, fun pre post => ?_⟩
  simp [processLogs, hempty]

/-- Witness for C2: a 3-topic Transfer mint log with an empty data payload
(the `uint256` decode fails). -/
theorem C2_decode_failure_degrades_witness :
    payloadDecodeFails ⟨1, "0xw", 0, 2, [TRANSFER_TOPIC, ZERO_TOPIC, 9], []⟩ = true
  ∧ processLog ⟨1, "0xw", 0, 2, [TRANSFER_TOPIC, ZERO_TOPIC, 9], []⟩ = [] :=
  ⟨by decide,
   (C2_decode_failure_degrades ⟨1, "0xw", 0, 2, [TRANSFER_TOPIC, ZERO_TOPIC, 9], []⟩
      (by decide)).1⟩

/-! ## C3 -/

theorem countAt_append (a : Nat) (l1 l2 : List MintItem) :
    countAt a (l1 ++ l2) = countAt a l1 + countAt a l2 := by
  simp [countAt, List.countP_append]

theorem tsetAt_append (a : Nat) (l1 l2 : List MintItem) :
    tsetAt a (l1 ++ l2) = tsetAt a l1 ∪ tsetAt a l2 := by
  simp [tsetAt, List.filter_append, List.filterMap_append, List.toFinset_append]

theorem summary_shape_of_ingest (cache : MetaCache) (items : List MintItem)
    (a : Nat) (h : 0 < countAt a items) :
    ∃ s, ingestSummaries cache items emptySummaries a = some s ∧
      s.totalMintEvents = countAt a items ∧
      s.tokenIds = tsetAt a items ∧
      s.uniqueTokens = (tsetAt a items).card := by
  have hsome : ((ingestSummaries cache items emptySummaries) a).isSome := by
    rw [isSome_ingest]
    exact Or.inr h
  obtain ⟨s, hs⟩ := Option.isSome_iff_exists.mp hsome
  have htot := totalAt_ingest cache items emptySummaries a
  have htid := tidsAt_ingest cache items emptySummaries a
  rw [totalAt, hs] at htot
  rw [tidsAt, hs] at htid
  simp only [Option.elim_some] at htot htid
  have hempty_tot : totalAt emptySummaries a = 0 := rfl
  have hempty_tid : tidsAt emptySummaries a = ∅ := rfl
  rw [hempty_tot] at htot
  rw [hempty_tid, Finset.empty_union] at htid
  have hcard := cardInv_ingest cache items emptySummaries cardInv_empty a s hs
  refine ⟨s, hs, by omega, htid, ?_⟩
  rw [hcard, htid]

/-- C3: folding a list of MintItems into the empty summary map gives, for any
contract address occurring in the list, a summary whose `totalMintEvents` is
exactly the number of items for that address and whose `uniqueTokens` is the
number of distinct non-empty tokenId values among them; folding the same list
twice doubles `totalMintEvents` and leaves `uniqueTokens` unchanged. -/
theorem C3_summary_counts (cache : MetaCache) (items : List MintItem) (a : Nat)
    (h : 0 < countAt a items) :
    (∃ s, ingestSummaries cache items emptySummaries a = some s ∧
       s.totalMintEvents = countAt a items ∧
       s.uniqueTokens = (tsetAt a items).card)
  ∧ (∃ s, ingestSummaries cache (items ++ items) emptySummaries a = some s ∧
       s.totalMintEvents = 2 * countAt a items ∧
       s.uniqueTokens = (tsetAt a items).card) := by
  constructor
  · obtain ⟨s, hs, h1, _, h3⟩ := summary_shape_of_ingest cache items a h
    exact ⟨s, hs, h1, h3⟩
  · have h2 : 0 < countAt a (items ++ items) := by
      rw [countAt_append]; omega
    obtain ⟨s, hs, h1, _, h3⟩ := summary_shape_of_ingest cache (items ++ items) a h2
    refine ⟨s, hs, ?_, ?_⟩
    · rw [h1, countAt_append]; omega
    · rw [h3, tsetAt_append, Finset.union_self]

/-- Witness for C3: a single ERC-721 item for contract 5. -/
theorem C3_summary_counts_witness :
    0 < countAt 5 [⟨1, "0xw", 0, 5, 6, TokenType.ERC721, some "1", none, none⟩]
  ∧ ((∃ s, ingestSummaries (fun _ => none)
        [⟨1, "0xw", 0, 5, 6, TokenType.ERC721, some "1", none, none⟩]
        emptySummaries 5 = some s ∧
      s.totalMintEvents
        = countAt 5 [⟨1, "0xw", 0, 5, 6, TokenType.ERC721, some "1", none, none⟩] ∧
      s.uniqueTokens
        = (tsetAt 5 [⟨1, "0xw", 0, 5, 6, TokenType.ERC721, some "1", none, none⟩]).card)
  ∧ (∃ s, ingestSummaries (fun _ => none)
        ([⟨1, "0xw", 0, 5, 6, TokenType.ERC721, some "1", none, none⟩]
          ++ [⟨1, "0xw", 0, 5, 6, TokenType.ERC721, some "1", none, none⟩])
        emptySummaries 5 = some s ∧
      s.totalMintEvents
        = 2 * countAt 5 [⟨1, "0xw", 0, 5, 6, TokenType.ERC721, some "1", none, none⟩] ∧
      s.uniqueTokens
        = (tsetAt 5 [⟨1, "0xw", 0, 5, 6, TokenType.ERC721, some "1", none, none⟩]).card)) :=
  ⟨by decide,
   C3_summary_counts (fun _ => none)
     [⟨1, "0xw", 0, 5, 6, TokenType.ERC721, some "1", none, none⟩] 5 (by decide)⟩

/-! ## C6 -/

/-- C6: after the global-log update of `processNewItems` with a non-empty
batch, the log is sorted by block number descending then log index descending
(the full rational order on log indexes, so batch sub-item fractions are
ordered too), whatever the previous contents were. -/
theorem C6_log_sorted_after_ingest (newItems prev : List MintItem)
    (h : newItems ≠ []) :
    (ingestLog newItems prev).Pairwise (fun a b => leKey a b) := by
  unfold ingestLog
  rw [if_neg (by simpa using h)]
  exact List.sorted_mergeSort leKey_trans leKey_total _

/-- Witness for C6: a two-item unsorted prior log, one new item. -/
theorem C6_log_sorted_after_ingest_witness :
    (ingestLog [⟨2, "0xc", 0, 1, 1, TokenType.ERC20, none, some "1", none⟩]
      [⟨1, "0xa", 0, 1, 1, TokenType.ERC20, none, some "1", none⟩,
       ⟨3, "0xb", 0, 1, 1, TokenType.ERC20, none, some "1", none⟩]).Pairwise
      (fun a b => leKey a b) :=
  C6_log_sorted_after_ingest _ _ (by decide)

/-! ## C4 -/

theorem ingestLog_of_sorted {new prev : List MintItem}
    (h : (new ++ prev).Pairwise (fun a b => leKey a b)) (hne : new ≠ []) :
    ingestLog new prev = new ++ prev := by
  unfold ingestLog
  rw [if_neg (by simpa using hne)]
  exact List.mergeSort_of_sorted h

/-- C4, counterexample.  The claim promises a permutation-independent final
log order for ANY fixed item set, but two distinct items sharing the sort key
`(blockNumber, logIndex)` keep their arrival order under the (stable) sort:
ingesting `[A]` then `[B]` ends with `[B, A]`, while `[B]` then `[A]` ends
with `[A, B]`. -/
theorem C4_counterexample :
    ([⟨1, "0xa", 0, 1, 1, TokenType.ERC721, some "1", none, none⟩,
      ⟨1, "0xb", 0, 2, 2, TokenType.ERC721, some "2", none, none⟩] :
        List MintItem).Perm
      [⟨1, "0xb", 0, 2, 2, TokenType.ERC721, some "2", none, none⟩,
       ⟨1, "0xa", 0, 1, 1, TokenType.ERC721, some "1", none, none⟩]
  ∧ foldIngestLog
      [[⟨1, "0xa", 0, 1, 1, TokenType.ERC721, some "1", none, none⟩],
       [⟨1, "0xb", 0, 2, 2, TokenType.ERC721, some "2", none, none⟩]]
    ≠ foldIngestLog
      [[⟨1, "0xb", 0, 2, 2, TokenType.ERC721, some "2", none, none⟩],
       [⟨1, "0xa", 0, 1, 1, TokenType.ERC721, some "1", none, none⟩]] := by
  constructor
  · exact List.Perm.swap _ _ _
  · have eA : ingestLog
        [⟨1, "0xa", 0, 1, 1, TokenType.ERC721, some "1", none, none⟩] []
        = [⟨1, "0xa", 0, 1, 1, TokenType.ERC721, some "1", none, none⟩] := by
      rw [ingestLog_of_sorted (by simp) (by simp)]
      simp
    have eB : ingestLog
        [⟨1, "0xb", 0, 2, 2, TokenType.ERC721, some "2", none, none⟩] []
        = [⟨1, "0xb", 0, 2, 2, TokenType.ERC721, some "2", none, none⟩] := by
      rw [ingestLog_of_sorted (by simp) (by simp)]
      simp
    have eBA : ingestLog
        [⟨1, "0xb", 0, 2, 2, TokenType.ERC721, some "2", none, none⟩]
        [⟨1, "0xa", 0, 1, 1, TokenType.ERC721, some "1", none, none⟩]
        = [⟨1, "0xb", 0, 2, 2, TokenType.ERC721, some "2", none, none⟩,
           ⟨1, "0xa", 0, 1, 1, TokenType.ERC721, some "1", none, none⟩] := by
      rw [ingestLog_of_sorted ?_ (by simp)]
      · simp
      · simp only [List.cons_append, List.nil_append]
        refine List.pairwise_cons.mpr ⟨?_, by simp⟩
        intro b hb
        simp only [List.mem_singleton] at hb
        subst hb
        decide
    have eAB : ingestLog
        [⟨1, "0xa", 0, 1, 1, TokenType.ERC721, some "1", none, none⟩]
        [⟨1, "0xb", 0, 2, 2, TokenType.ERC721, some "2", none, none⟩]
        = [⟨1, "0xa", 0, 1, 1, TokenType.ERC721, some "1", none, none⟩,
           ⟨1, "0xb", 0, 2, 2, TokenType.ERC721, some "2", none, none⟩] := by
      rw [ingestLog_of_sorted ?_ (by simp)]
      · simp
      · simp only [List.cons_append, List.nil_append]
        refine List.pairwise_cons.mpr ⟨?_, by simp⟩
        intro b hb
        simp only [List.mem_singleton] at hb
        subst hb
        decide
    simp only [foldIngestLog, List.foldl_cons, List.foldl_nil, eA, eB, eBA, eAB]
    intro hcontra
    simp at hcontra

theorem countAt_perm {l1 l2 : List MintItem} (h : l1.Perm l2) (a : Nat) :
    countAt a l1 = countAt a l2 :=
  h.countP_eq _

theorem tsetAt_perm {l1 l2 : List MintItem} (h : l1.Perm l2) (a : Nat) :
    tsetAt a l1 = tsetAt a l2 :=
  List.toFinset_eq_of_perm _ _ ((h.filter _).filterMap tokenKey)

theorem none_of_countAt_zero (cache : MetaCache) (items : List MintItem)
    (a : Nat) (h : countAt a items = 0) :
    ingestSummaries cache items emptySummaries a = none := by
  rw [← Option.not_isSome_iff_eq_none, isSome_ingest]
  simp [emptySummaries, h]

/-- C4 (amended): for any two ingest sequences over the same item multiset,
the per-contract `totalMintEvents` and `uniqueTokens` agree unconditionally;
and whenever the combined items have pairwise-distinct
`(blockNumber, logIndex)` sort keys, the two final global logs are the
identical list.  (The distinctness hypothesis of the log conjunct is
necessary: see the key-collision counterexample.) -/
theorem C4_permutation_deterministic (cache : MetaCache)
    (bs1 bs2 : List (List MintItem))
    (hperm : bs1.flatten.Perm bs2.flatten) :
    (bs1.flatten.Pairwise keyNe → foldIngestLog bs1 = foldIngestLog bs2)
  ∧ ∀ a, totalAt (ingestSummaries cache bs1.flatten emptySummaries) a
        = totalAt (ingestSummaries cache bs2.flatten emptySummaries) a
      ∧ uniqueAt (ingestSummaries cache bs1.flatten emptySummaries) a
        = uniqueAt (ingestSummaries cache bs2.flatten emptySummaries) a := by
  constructor
  · intro hkeys
    have p1 := foldIngestLog_perm bs1
    have p2 := foldIngestLog_perm bs2
    have p12 : (foldIngestLog bs1).Perm (foldIngestLog bs2) :=
      p1.trans (hperm.trans p2.symm)
    have k1 : (foldIngestLog bs1).Pairwise keyNe :=
      (List.Perm.pairwise_iff keyNe_symm p1).mpr hkeys
    have k2 : (foldIngestLog bs2).Pairwise keyNe :=
      (List.Perm.pairwise_iff keyNe_symm p2).mpr
        ((List.Perm.pairwise_iff keyNe_symm hperm).mp hkeys)
    have st1 : (foldIngestLog bs1).Pairwise ltKey :=
      ((pairwise_leKey_foldIngestLog bs1).and k1).imp
        (fun h => ltKey_of_leKey_keyNe h.1 h.2)
    have st2 : (foldIngestLog bs2).Pairwise ltKey :=
      ((pairwise_leKey_foldIngestLog bs2).and k2).imp
        (fun h => ltKey_of_leKey_keyNe h.1 h.2)
    exact List.eq_of_perm_of_sorted p12 st1 st2
  · intro a
    constructor
    · rw [totalAt_ingest, totalAt_ingest, countAt_perm hperm]
    · by_cases hc : 0 < countAt a bs1.flatten
      · have hc2 : 0 < countAt a bs2.flatten := by
          rw [← countAt_perm hperm]; exact hc
        obtain ⟨s1, hs1, _, _, hu1⟩ :=
          summary_shape_of_ingest cache bs1.flatten a hc
        obtain ⟨s2, hs2, _, _, hu2⟩ :=
          summary_shape_of_ingest cache bs2.flatten a hc2
        rw [uniqueAt, uniqueAt, hs1, hs2]
        simp only [Option.elim_some]
        rw [hu1, hu2, tsetAt_perm hperm]
      · have hc1 : countAt a bs1.flatten = 0 := by omega
        have hc2 : countAt a bs2.flatten = 0 := by
          rw [← countAt_perm hperm]; exact hc1
        rw [uniqueAt, uniqueAt, none_of_countAt_zero cache _ a hc1,
          none_of_countAt_zero cache _ a hc2]

/-- Witness for C4's amended theorem: two one-item batches with distinct
block numbers, ingested in both orders; the key-distinctness hypothesis of
the log conjunct is discharged concretely. -/
theorem C4_permutation_deterministic_witness :
    foldIngestLog
        [[⟨1, "0xa", 0, 1, 1, TokenType.ERC721, some "1", none, none⟩],
         [⟨2, "0xb", 0, 2, 2, TokenType.ERC721, some "2", none, none⟩]]
      = foldIngestLog
        [[⟨2, "0xb", 0, 2, 2, TokenType.ERC721, some "2", none, none⟩],
         [⟨1, "0xa", 0, 1, 1, TokenType.ERC721, some "1", none, none⟩]]
  ∧ ∀ a, totalAt (ingestSummaries (fun _ => none)
          ([[⟨1, "0xa", 0, 1, 1, TokenType.ERC721, some "1", none, none⟩],
            [⟨2, "0xb", 0, 2, 2, TokenType.ERC721, some "2", none, none⟩]].flatten)
          emptySummaries) a
        = totalAt (ingestSummaries (fun _ => none)
          ([[⟨2, "0xb", 0, 2, 2, TokenType.ERC721, some "2", none, none⟩],
            [⟨1, "0xa", 0, 1, 1, TokenType.ERC721, some "1", none, none⟩]].flatten)
          emptySummaries) a
      ∧ uniqueAt (ingestSummaries (fun _ => none)
          ([[⟨1, "0xa", 0, 1, 1, TokenType.ERC721, some "1", none, none⟩],
            [⟨2, "0xb", 0, 2, 2, TokenType.ERC721, some "2", none, none⟩]].flatten)
          emptySummaries) a
        = uniqueAt (ingestSummaries (fun _ => none)
          ([[⟨2, "0xb", 0, 2, 2, TokenType.ERC721, some "2", none, none⟩],
            [⟨1, "0xa", 0, 1, 1, TokenType.ERC721, some "1", none, none⟩]].flatten)
          emptySummaries) a :=
  ⟨(C4_permutation_deterministic (fun _ => none)
      [[⟨1, "0xa", 0, 1, 1, TokenType.ERC721, some "1", none, none⟩],
       [⟨2, "0xb", 0, 2, 2, TokenType.ERC721, some "2", none, none⟩]]
      [[⟨2, "0xb", 0, 2, 2, TokenType.ERC721, some "2", none, none⟩],
       [⟨1, "0xa", 0, 1, 1, TokenType.ERC721, some "1", none, none⟩]]
      (by decide)).1 (by simp [keyNe]),
   (C4_permutation_deterministic (fun _ => none)
      [[⟨1, "0xa", 0, 1, 1, TokenType.ERC721, some "1", none, none⟩],
       [⟨2, "0xb", 0, 2, 2, TokenType.ERC721, some "2", none, none⟩]]
      [[⟨2, "0xb", 0, 2, 2, TokenType.ERC721, some "2", none, none⟩],
       [⟨1, "0xa", 0, 1, 1, TokenType.ERC721, some "1", none, none⟩]]
      (by decide)).2⟩

/-! ## C5 -/

/-- Session invariant: an address with no cache entry has no started fetch,
and no address ever accumulates more than one started fetch. -/
def SessionInv (s : SessionState) : Prop :=
  ∀ a, (s.metaCache a = none → s.fetchCount a = 0) ∧ s.fetchCount a ≤ 1

theorem sessionInv_reset : SessionInv resetState := by
  intro a
  exact ⟨fun _ => rfl, by simp [resetState]⟩

theorem sessionInv_applyOp {s : SessionState} (h : SessionInv s)
    (op : SessionOp) : SessionInv (applyOp s op) := by
  cases op with
  | upsert item =>
      intro a
      simpa [applyOp] using h a
  | enrichStart addr =>
      by_cases hc : (s.metaCache addr).isSome
      · simpa [applyOp, hc] using h
      · intro a
        by_cases ha : a = addr
        · subst ha
          have h0 : s.fetchCount a = 0 :=
            (h a).1 (Option.not_isSome_iff_eq_none.mp hc)
          constructor
          · intro hnone
            simp [applyOp, hc] at hnone
          · simp [applyOp, hc, h0]
        · constructor
          · intro hnone
            simp [applyOp, hc, ha] at hnone
            simp [applyOp, hc, ha, (h a).1 hnone]
          · simpa [applyOp, hc, ha] using (h a).2
  | enrichResolve addr meta =>
      intro a
      by_cases ha : a = addr
      · subst ha
        constructor
        · intro hnone
          simp [applyOp] at hnone
        · simpa [applyOp] using (h a).2
      · constructor
        · intro hnone
          simp [applyOp, ha] at hnone
          simpa [applyOp, ha] using (h a).1 hnone
        · simpa [applyOp, ha] using (h a).2

theorem sessionInv_run (ops : List SessionOp) : SessionInv (runSession ops) := by
  suffices hgen : ∀ s : SessionState, SessionInv s →
      SessionInv (ops.foldl applyOp s) by
    exact hgen resetState sessionInv_reset
  induction ops with
  | nil => intro s hs; simpa using hs
  | cons op rest ih =>
      intro s hs
      exact ih _ (sessionInv_applyOp hs op)

/-- C5: over any sequence of session steps after a reset, at most one
metadata fetch is ever started per contract address — the synchronously
installed cache placeholder being the in-flight-or-done marker — and a
repeat `enrichCollection` call for an address already in the cache leaves the
session state entirely unchanged (no fetch). -/
theorem C5_at_most_one_fetch (ops : List SessionOp) (a : Nat) :
    (runSession ops).fetchCount a ≤ 1
  ∧ ∀ s : SessionState, (s.metaCache a).isSome →
      applyOp s (SessionOp.enrichStart a) = s := by
  refine ⟨(sessionInv_run ops a).2, fun s hs => ?_⟩
  simp [applyOp, hs]

/-- Witness for C5: two enrichment calls for address 1 — the second hits the
placeholder installed by the first and is a no-op. -/
theorem C5_at_most_one_fetch_witness :
    (runSession [SessionOp.enrichStart 1, SessionOp.enrichStart 1]).fetchCount 1 ≤ 1
  ∧ applyOp (applyOp resetState (SessionOp.enrichStart 1)) (SessionOp.enrichStart 1)
      = applyOp resetState (SessionOp.enrichStart 1) :=
  ⟨(C5_at_most_one_fetch [SessionOp.enrichStart 1, SessionOp.enrichStart 1] 1).1,
   (C5_at_most_one_fetch [] 1).2 (applyOp resetState (SessionOp.enrichStart 1)) (by rfl)⟩

/-! ## C7 -/

/-- The summary produced for `item.contract` by one upsert of `item` under a
fully resolved metadata object `meta`, in either interleaving order. -/
def firstSummaryWith (item : MintItem) (meta : ContractMeta) : CollSummary where
  address := item.contract
  type := item.type
  name := meta.name
  symbol := meta.symbol
  decimals := meta.decimals
  totalMintEvents := 1
  uniqueTokens :=
    ((match item.tokenId with
      | some t => if t = "" then (∅ : Finset String) else {t}
      | none => (∅ : Finset String)) : Finset String).card
  tokenIds :=
    ((match item.tokenId with
      | some t => if t = "" then (∅ : Finset String) else {t}
      | none => (∅ : Finset String)) : Finset String)

/-- C7: whichever of summary creation and metadata resolution runs second,
no resolved field is clobbered: both interleavings of {placeholder install,
first-item upsert, fetch resolution} end with the same summary, carrying all
of the resolved metadata fields. -/
theorem C7_meta_no_clobber (item : MintItem) (meta : ContractMeta) :
    (runSession [SessionOp.enrichStart item.contract, SessionOp.upsert item,
        SessionOp.enrichResolve item.contract meta]).summaries item.contract
      = (runSession [SessionOp.enrichStart item.contract,
          SessionOp.enrichResolve item.contract meta,
          SessionOp.upsert item]).summaries item.contract
  ∧ ∃ s : CollSummary,
      (runSession [SessionOp.enrichStart item.contract, SessionOp.upsert item,
          SessionOp.enrichResolve item.contract meta]).summaries item.contract
        = some s
      ∧ s.name = meta.name ∧ s.symbol = meta.symbol ∧ s.decimals = meta.decimals := by
  have hcache : (resetState.metaCache item.contract).isSome = false := rfl
  constructor
  · simp [runSession, applyOp, resetState, upsertSummary, mergeMetaIntoSummaries,
      emptySummaries]
  · refine ⟨firstSummaryWith item meta, ?_, rfl, rfl, rfl⟩
    cases hid : item.tokenId with
    | none =>
        simp [runSession, applyOp, resetState, upsertSummary, firstSummaryWith,
          mergeMetaIntoSummaries, emptySummaries, hid]
    | some t =>
        by_cases ht : t = "" <;>
          simp [runSession, applyOp, resetState, upsertSummary, firstSummaryWith,
            mergeMetaIntoSummaries, emptySummaries, hid, ht]

/-! ## C8 -/

/-- C8: the listener's gate rejects a transaction with no destination
(contract creation), accepts a destination exactly when its lower-cased form
matches a whitelist entry's lower-cased form, and a rejected transaction's
log is never classified or decoded — the listener emits nothing for it,
whatever the log contains. -/
theorem C8_contract_filter :
    txAllowed none = false
  ∧ (∀ tx : TxInfo, tx.toField = none → txAllowed (some tx) = false)
  ∧ (∀ t : String, txAllowed (some ⟨some t⟩) = true
        ↔ ∃ w ∈ MINT_CONTRACT_WHITELIST, t.toLower = w.toLower)
  ∧ (∀ (txr : Option TxInfo) (log : RawLog),
      txAllowed txr = false → liveStep txr log = []) := by
  refine ⟨rfl, ?_, ?_, ?_⟩
  · intro tx h
    simp [txAllowed, h]
  · intro t
    simp [txAllowed, allowedMintContracts, MINT_CONTRACT_WHITELIST]
  · intro txr log h
    simp [liveStep, h]

/-- Witness for C8: the whitelist address itself is accepted; a transaction
with no destination is rejected, and with a `null` transaction lookup a
well-formed ERC-721 mint log still produces nothing. -/
theorem C8_contract_filter_witness :
    txAllowed (some ⟨some "0x00000000009a1E02f00E280dcfA4C81c55724212"⟩) = true
  ∧ txAllowed (some ⟨none⟩) = false
  ∧ liveStep none ⟨1, "0xw", 0, 2, [TRANSFER_TOPIC, ZERO_TOPIC, 9, 7], []⟩ = [] :=
  ⟨(C8_contract_filter.2.2.1 "0x00000000009a1E02f00E280dcfA4C81c55724212").mpr
      ⟨"0x00000000009a1E02f00E280dcfA4C81c55724212", by decide, rfl⟩,
   C8_contract_filter.2.1 ⟨none⟩ rfl,
   C8_contract_filter.2.2.2 none ⟨1, "0xw", 0, 2, [TRANSFER_TOPIC, ZERO_TOPIC, 9, 7], []⟩
     rfl⟩

/-! ## C9 -/

/-- A concrete `TransferBatch` mint log: from = zero sentinel, recipient
topic 9, ids `[1,2,3]` and values `[10,20,30]` ABI-encoded in data (offsets
then length-prefixed arrays). -/
def batchLogC9 : RawLog :=
  ⟨100, "0xb1", 5, 3, [TRANSFER_BATCH_TOPIC, 7, ZERO_TOPIC, 9],
    [2, 6, 3, 1, 2, 3, 3, 10, 20, 30]⟩

/-- First decoded sub-item of `batchLogC9`. -/
def i0C9 : MintItem := ⟨100, "0xb1", 5, 3, 9, TokenType.ERC1155, some "1", some "10", none⟩

/-- Second decoded sub-item of `batchLogC9`. -/
def i1C9 : MintItem :=
  ⟨100, "0xb1", 5 + 1/1000, 3, 9, TokenType.ERC1155, some "2", some "20", none⟩

/-- Third decoded sub-item of `batchLogC9`. -/
def i2C9 : MintItem :=
  ⟨100, "0xb1", 5 + 2/1000, 3, 9, TokenType.ERC1155, some "3", some "30", none⟩

theorem processLog_batchLogC9 : processLog batchLogC9 = [i0C9, i1C9, i2C9] := by
  norm_num [processLog, batchItems, decodeUintArrayPair, readDynArray, topicToAddress,
    TRANSFER_BATCH_TOPIC, TRANSFER_TOPIC, TRANSFER_SINGLE_TOPIC, ZERO_TOPIC,
    batchLogC9, i0C9, i1C9, i2C9]
  decide

theorem ingestLog_batchC9 : ingestLog [i0C9, i1C9, i2C9] [] = [i2C9, i1C9, i0C9] := by
  unfold ingestLog
  rw [if_neg (by simp)]
  have hrev : ([i0C9, i1C9, i2C9] : List MintItem).reverse = [i2C9, i1C9, i0C9] := rfl
  have hperm : (List.mergeSort ([i0C9, i1C9, i2C9] ++ []) leKey).Perm
      [i2C9, i1C9, i0C9] := by
    refine (List.mergeSort_perm _ _).trans ?_
    simp only [List.append_nil]
    exact hrev ▸ ([i0C9, i1C9, i2C9] : List MintItem).reverse_perm.symm
  have hkeys : ([i0C9, i1C9, i2C9] : List MintItem).Pairwise keyNe := by
    norm_num [List.pairwise_cons, keyNe, i0C9, i1C9, i2C9]
  have hkeys1 : (List.mergeSort ([i0C9, i1C9, i2C9] ++ []) leKey).Pairwise keyNe := by
    refine (List.Perm.pairwise_iff keyNe_symm ?_).mpr hkeys
    refine (List.mergeSort_perm _ _).trans ?_
    simp
  have hst1 : (List.mergeSort ([i0C9, i1C9, i2C9] ++ []) leKey).Pairwise ltKey :=
    ((List.sorted_mergeSort leKey_trans leKey_total _).and hkeys1).imp
      (fun h => ltKey_of_leKey_keyNe h.1 h.2)
  have hst2 : ([i2C9, i1C9, i0C9] : List MintItem).Pairwise ltKey := by
    norm_num [List.pairwise_cons, ltKey, i0C9, i1C9, i2C9]
  exact List.eq_of_perm_of_sorted hperm hst1 hst2

/-- C9, counterexample.  The decoded batch sub-items carry strictly
increasing fractional log indexes, but under the aggregator's
`(blockNumber desc, logIndex desc)` sort they come out REVERSED — the sorted
log lists the last-emitted sub-item first, so emission order is not kept. -/
theorem C9_counterexample :
    ingestLog (processLog batchLogC9) [] = (processLog batchLogC9).reverse
  ∧ (processLog batchLogC9).reverse ≠ processLog batchLogC9 := by
  constructor
  · rw [processLog_batchLogC9, ingestLog_batchC9]
    rfl
  · rw [processLog_batchLogC9]
    intro hcontra
    have h1 : i2C9 = i0C9 ∧ i0C9 = i2C9 := by simpa using hcontra
    exact absurd (congrArg MintItem.tokenId h1.1) (by decide)

/-- C9 (amended): decoding `batchLogC9` yields exactly 3 MintItems sharing
txHash, contract and recipient, with tokenIds "1","2","3" and amounts
"10","20","30" in emission order, and logIndex values strictly increasing
from the base index by increments below 1; under the aggregator's
`(blockNumber desc, logIndex desc)` sort the three sub-items stay adjacent
with a deterministic order — the reverse of emission order (newest first),
consistent with the rest of the feed. -/
theorem C9_batch_decode :
    processLog batchLogC9 = [i0C9, i1C9, i2C9]
  ∧ (i0C9.txHash = i1C9.txHash ∧ i1C9.txHash = i2C9.txHash)
  ∧ (i0C9.contract = i1C9.contract ∧ i1C9.contract = i2C9.contract)
  ∧ (i0C9.toAddr = i1C9.toAddr ∧ i1C9.toAddr = i2C9.toAddr)
  ∧ (i0C9.tokenId = some "1" ∧ i1C9.tokenId = some "2" ∧ i2C9.tokenId = some "3")
  ∧ (i0C9.amount = some "10" ∧ i1C9.amount = some "20" ∧ i2C9.amount = some "30")
  ∧ i0C9.logIndex = (batchLogC9.index : ℚ)
  ∧ (i0C9.logIndex < i1C9.logIndex ∧ i1C9.logIndex < i2C9.logIndex)
  ∧ (i1C9.logIndex - i0C9.logIndex < 1 ∧ i2C9.logIndex - i1C9.logIndex < 1)
  ∧ ingestLog (processLog batchLogC9) [] = [i2C9, i1C9, i0C9] := by
  refine ⟨processLog_batchLogC9, ⟨rfl, rfl⟩, ⟨rfl, rfl⟩, ⟨rfl, rfl⟩,
    ⟨rfl, rfl, rfl⟩, ⟨rfl, rfl, rfl⟩, ?_, ⟨?_, ?_⟩, ⟨?_, ?_⟩, ?_⟩
  · norm_num [i0C9, batchLogC9]
  · norm_num [i0C9, i1C9]
  · norm_num [i1C9, i2C9]
  · norm_num [i0C9, i1C9]
  · norm_num [i1C9, i2C9]
  · rw [processLog_batchLogC9]
    exact ingestLog_batchC9

/-! ## C10 -/

/-- The record `upsertSummary` writes back for an existing summary `cur`. -/
def upsertedSummary (item : MintItem) (cur : CollSummary) : CollSummary :=
  let tokenIds : Finset String :=
    match item.tokenId with
    | some t => if t = "" then cur.tokenIds else insert t cur.tokenIds
    | none => cur.tokenIds
  { cur with
      tokenIds := tokenIds
      uniqueTokens := tokenIds.card
      totalMintEvents := cur.totalMintEvents + 1 }

/-- The record the metadata merge writes back for an existing summary. -/
def mergedSummary (meta : ContractMeta) (cur : CollSummary) : CollSummary :=
  { cur with
      name := meta.name
      symbol := meta.symbol
      decimals := meta.decimals }

/-- C10: once a contract's summary exists, `upsertSummary` — even for an item
of a different token type — preserves its `address`, `type`, `name`,
`symbol` and `decimals`, rewriting only `tokenIds`/`uniqueTokens`/
`totalMintEvents`, and the metadata merge preserves its `address`, `type`,
`totalMintEvents`, `uniqueTokens` and `tokenIds`, rewriting only
`name`/`symbol`/`decimals`; neither touches any other address's entry. -/
theorem C10_frame_conditions :
    (∀ (cache : MetaCache) (item : MintItem) (prev : Summaries)
        (cur : CollSummary), prev item.contract = some cur →
      (∃ s, upsertSummary cache item prev item.contract = some s ∧
        s.address = cur.address ∧ s.type = cur.type ∧ s.name = cur.name ∧
        s.symbol = cur.symbol ∧ s.decimals = cur.decimals) ∧
      (∀ b, b ≠ item.contract → upsertSummary cache item prev b = prev b))
  ∧ (∀ (addr : Nat) (meta : ContractMeta) (prev : Summaries)
        (cur : CollSummary), prev addr = some cur →
      (∃ s, mergeMetaIntoSummaries addr meta prev addr = some s ∧
        s.address = cur.address ∧ s.type = cur.type ∧
        s.totalMintEvents = cur.totalMintEvents ∧
        s.uniqueTokens = cur.uniqueTokens ∧ s.tokenIds = cur.tokenIds) ∧
      (∀ b, b ≠ addr → mergeMetaIntoSummaries addr meta prev b = prev b)) := by
  constructor
  · intro cache item prev cur h
    constructor
    · exact ⟨upsertedSummary item cur,
        by simp [upsertSummary, upsertedSummary, h], rfl, rfl, rfl, rfl, rfl⟩
    · intro b hb
      simp [upsertSummary, hb]
  · intro addr meta prev cur h
    constructor
    · exact ⟨mergedSummary meta cur,
        by simp [mergeMetaIntoSummaries, mergedSummary, h], rfl, rfl, rfl, rfl, rfl⟩
    · intro b hb
      simp [mergeMetaIntoSummaries, h, hb]

/-- Witness for C10: a pre-existing ERC-721 summary for address 5 receives an
ERC-1155 item and a metadata merge. -/
theorem C10_frame_conditions_witness :
    ((∃ s, upsertSummary (fun _ => none)
        ⟨1, "0xw", 0, 5, 6, TokenType.ERC1155, some "2", none, none⟩
        (fun a => if a = 5 then
          some ⟨5, TokenType.ERC721, some "N", none, none, 3, 1, {"1"}⟩ else none)
        5 = some s ∧
      s.address = 5 ∧ s.type = TokenType.ERC721 ∧ s.name = some "N" ∧
      s.symbol = none ∧ s.decimals = none) ∧
     (∀ b, b ≠ 5 → upsertSummary (fun _ => none)
        ⟨1, "0xw", 0, 5, 6, TokenType.ERC1155, some "2", none, none⟩
        (fun a => if a = 5 then
          some ⟨5, TokenType.ERC721, some "N", none, none, 3, 1, {"1"}⟩ else none)
        b = (fun a => if a = 5 then
          some (⟨5, TokenType.ERC721, some "N", none, none, 3, 1, {"1"}⟩ : CollSummary)
          else none) b))
  ∧ ((∃ s, mergeMetaIntoSummaries 5 ⟨some "M", some "MM", some 18⟩
        (fun a => if a = 5 then
          some ⟨5, TokenType.ERC721, some "N", none, none, 3, 1, {"1"}⟩ else none)
        5 = some s ∧
      s.address = 5 ∧ s.type = TokenType.ERC721 ∧ s.totalMintEvents = 3 ∧
      s.uniqueTokens = 1 ∧ s.tokenIds = {"1"}) ∧
     (∀ b, b ≠ 5 → mergeMetaIntoSummaries 5 ⟨some "M", some "MM", some 18⟩
        (fun a => if a = 5 then
          some ⟨5, TokenType.ERC721, some "N", none, none, 3, 1, {"1"}⟩ else none)
        b = (fun a => if a = 5 then
          some (⟨5, TokenType.ERC721, some "N", none, none, 3, 1, {"1"}⟩ : CollSummary)
          else none) b)) :=
  ⟨C10_frame_conditions.1 (fun _ => none)
      ⟨1, "0xw", 0, 5, 6, TokenType.ERC1155, some "2", none, none⟩
      (fun a => if a = 5 then
        some ⟨5, TokenType.ERC721, some "N", none, none, 3, 1, {"1"}⟩ else none)
      ⟨5, TokenType.ERC721, some "N", none, none, 3, 1, {"1"}⟩ (by simp),
   C10_frame_conditions.2 5 ⟨some "M", some "MM", some 18⟩
      (fun a => if a = 5 then
        some ⟨5, TokenType.ERC721, some "N", none, none, 3, 1, {"1"}⟩ else none)
      ⟨5, TokenType.ERC721, some "N", none, none, 3, 1, {"1"}⟩ (by simp)⟩
